import Mathlib

/-!
Verification development for the bookworm documentation indexing and
retrieval engine.  The Rust crates `wrm_index` (docset walker, entry
classifier, nested-item extractor, SQLite index store), `wrm_query`
(search engine) and `wrm_docs` (fragment resolver) are shallowly embedded
as executable Lean definitions.  File contents are modelled as a raw
string (used by the redirection check, which reads the file textually)
together with a parsed DOM tree (the `dom_query::Document` the Rust code
builds from the same bytes).  SQLite and rusqlite are modelled at the
level of the statements appearing in the sources: the
`searchIndex(name, type, path)` table state, the statement-level effects
of `DROP TABLE` / `CREATE TABLE` / `CREATE UNIQUE INDEX` / `INSERT`,
rusqlite's single-statement `Connection::execute` (which rejects SQL text
holding a second statement with `MultipleStatement`), `LIKE` matching
(ASCII case-insensitive), and the `ORDER BY CASE ... length(name),
length(path)` ranking.
-/

namespace Bookworm

/-! ### List-of-char string helpers -/

/-- True when `needle` is a prefix of `hay` (character-exact). -/
def startsWithL : List Char → List Char → Bool
  | [], _ => true
  | _ :: _, [] => false
  | p :: ps, c :: cs => p == c && startsWithL ps cs

/-- True when `needle` occurs contiguously somewhere inside `hay`.
Models Rust `str::contains` with a literal pattern. -/
def containsSubL (hay needle : List Char) : Bool :=
  startsWithL needle hay ||
    match hay with
    | [] => false
    | _ :: cs => containsSubL cs needle

/-- Strip `pre` from the front of `s`; models Rust `str::strip_prefix`. -/
def stripPre : List Char → List Char → Option (List Char)
  | [], s => some s
  | _ :: _, [] => none
  | p :: ps, c :: cs => if p = c then stripPre ps cs else none

/-- Split on a separator character; models Rust `str::split`.
`splitOnChar '.' "a.b" = ["a", "b"]` and the empty string gives `[""]`. -/
def splitOnChar (sep : Char) : List Char → List (List Char)
  | [] => [[]]
  | c :: cs =>
    match splitOnChar sep cs with
    | [] => [[]]
    | l :: ls => if c = sep then [] :: l :: ls else (c :: l) :: ls

/-- Split into lines, each keeping its terminating newline (the final line
may lack one); models what `BufRead::read_line` accumulates per call. -/
def splitLinesNl : List Char → List (List Char)
  | [] => []
  | c :: cs =>
    if c = '\n' then ['\n'] :: splitLinesNl cs
    else
      match splitLinesNl cs with
      | [] => [[c]]
      | l :: ls => (c :: l) :: ls

/-- Join chunks with a separator; models `Vec::join` / path display. -/
def joinSep (sep : List Char) : List (List Char) → List Char
  | [] => []
  | [l] => l
  | l :: ls => l ++ sep ++ joinSep sep ls

/-- All suffixes of a list, longest first, ending with `[]`. -/
def suffixesOf : List Char → List (List Char)
  | [] => [[]]
  | c :: cs => (c :: cs) :: suffixesOf cs

/-- Split at the first occurrence of `sep`; models `str::split_once`. -/
def splitFirst (sep : Char) : List Char → Option (List Char × List Char)
  | [] => none
  | c :: cs =>
    if c = sep then some ([], cs)
    else (splitFirst sep cs).map (fun q => (c :: q.1, q.2))

/-- Split at the last occurrence of `sep`; models `str::rsplit_once`. -/
def splitLast (sep : Char) : List Char → Option (List Char × List Char)
  | [] => none
  | c :: cs =>
    match splitLast sep cs with
    | some (a, b) => some (c :: a, b)
    | none => if c = sep then some ([], cs) else none

/-- ASCII lowercase of a string (the kind tokens and queries involved are
ASCII, where Rust `to_lowercase` and `Char.toLower` agree). -/
def toLowerStr (s : String) : String := String.mk (s.data.map Char.toLower)

/-- String-level wrapper of `splitOnChar`. -/
def splitParts (sep : Char) (s : String) : List String :=
  (splitOnChar sep s.data).map String.mk

/-- Build a slash-joined relative path string from segments. -/
def pathStrOf (segs : List String) : String :=
  String.mk (joinSep ['/'] (segs.map String.data))

/-- Module path display: segments joined by a double-colon separator;
models `to_string_lossy().replace('/', "::")` on a relative path. -/
def modPathStrOf (segs : List String) : String :=
  String.mk (joinSep [':', ':'] (segs.map String.data))

/-- Models `str::rsplit_once('#')` with the `unwrap_or((path, ""))` fallback used
by `Docs::item`. -/
def rsplitOnceHash (s : String) : String × String :=
  match splitLast '#' s.data with
  | none => (s, "")
  | some (a, b) => (String.mk a, String.mk b)

/-- Models `str::split_once('#')` with the `unwrap_or((v, ""))` fallback used for
source links. -/
def splitOnceHash (s : String) : String × String :=
  match splitFirst '#' s.data with
  | none => (s, "")
  | some (a, b) => (String.mk a, String.mk b)

/-- True when `suf` is a suffix of `s`; models Rust `str::ends_with`. -/
def endsWithStr (s suf : String) : Bool :=
  startsWithL suf.data.reverse s.data.reverse

/-! ### The DOM model

`dom_query::Document` is external; an HTML file's parsed form is modelled
as a tree of element nodes carrying the attributes the code inspects: the
tag name, the `id` attribute, the class list, and the `href` attribute. -/

mutual
inductive Node where
  | mk (tag : String) (idAttr : Option String) (classes : List String)
      (href : Option String) (children : NodeList)

inductive NodeList where
  | nil
  | cons (n : Node) (l : NodeList)
end

def Node.tag : Node → String
  | .mk t _ _ _ _ => t

def Node.idAttr : Node → Option String
  | .mk _ i _ _ _ => i

def Node.classes : Node → List String
  | .mk _ _ c _ _ => c

def Node.href : Node → Option String
  | .mk _ _ _ h _ => h

def Node.children : Node → NodeList
  | .mk _ _ _ _ c => c

/-- Models `Selection::has_class`. -/
def hasClass (c : String) (n : Node) : Bool := n.classes.contains c

def NodeList.toList : NodeList → List Node
  | .nil => []
  | .cons n l => n :: NodeList.toList l

def NodeList.ofList : List Node → NodeList
  | [] => .nil
  | n :: l => .cons n (NodeList.ofList l)

mutual
/-- Nodes of the tree (root included) satisfying `p`, in document
(preorder, left-to-right) order — the order `select(...).iter()` yields. -/
def collectNodes (p : Node → Bool) : Node → List Node
  | .mk tag i cls href children =>
    (if p (.mk tag i cls href children) then [Node.mk tag i cls href children] else []) ++
      collectNodesL p children

def collectNodesL (p : Node → Bool) : NodeList → List Node
  | .nil => []
  | .cons c rest => collectNodes p c ++ collectNodesL p rest
end

/-- Matching strict descendants of a node, in document order; models
`Selection::select` run on a single element. -/
def selectIn (p : Node → Bool) (n : Node) : List Node :=
  collectNodesL p n.children

mutual
/-- Serialization of a node; stands in for the markup text `dom_query`
would print.  Only its presence/shape matters to the claims. -/
def outerHtml : Node → String
  | .mk tag _ _ _ children =>
    "<" ++ tag ++ ">" ++ renderList children ++ "</" ++ tag ++ ">"

def renderList : NodeList → String
  | .nil => ""
  | .cons c rest => outerHtml c ++ renderList rest
end

/-- Models `Selection::inner_html`. -/
def innerHtml : Node → String
  | .mk _ _ _ _ children => renderList children

mutual
def nodeSize : Node → Nat
  | .mk _ _ _ _ children => 1 + nodeListSize children

def nodeListSize : NodeList → Nat
  | .nil => 0
  | .cons c rest => nodeSize c + nodeListSize rest
end

def sizeNodes : List Node → Nat
  | [] => 0
  | n :: l => nodeSize n + sizeNodes l

/-! ### The wrm_index data model -/

/-- The `wrm_index::EntryType` enum.  The Rust variant `Type` is spelled `Typ`
(`Type` is reserved in Lean); its display string is still "Type". -/
inductive EntryType where
  | Constant | Enum | Function | Macro | Method | Module
  | Struct | Trait | Typ | Variant | Attribute
deriving DecidableEq

/-- The `EntryType::all` list, in source order. -/
def EntryType.all : List EntryType :=
  [.Constant, .Enum, .Function, .Macro, .Method, .Module,
   .Struct, .Trait, .Typ, .Variant, .Attribute]

/-- The `Display` impl for `EntryType` (what is stored in the `type`
column). -/
def EntryType.toStr : EntryType → String
  | .Constant => "Constant"
  | .Enum => "Enum"
  | .Function => "Function"
  | .Macro => "Macro"
  | .Method => "Method"
  | .Module => "Module"
  | .Struct => "Struct"
  | .Trait => "Trait"
  | .Typ => "Type"
  | .Variant => "Variant"
  | .Attribute => "Attribute"

instance {ε α : Type} [DecidableEq ε] [DecidableEq α] : DecidableEq (Except ε α) :=
  fun x y =>
    match x, y with
    | .ok a, .ok b =>
      if h : a = b then .isTrue (by rw [h]) else .isFalse (fun he => h (Except.ok.inj he))
    | .error a, .error b =>
      if h : a = b then .isTrue (by rw [h]) else .isFalse (fun he => h (Except.error.inj he))
    | .ok _, .error _ => .isFalse (fun he => Except.noConfusion he)
    | .error _, .ok _ => .isFalse (fun he => Except.noConfusion he)

/-- SQLite/rusqlite-level error outcomes distinguished by the embedding.
`multipleStatement` is rusqlite's error for SQL text holding more than
one statement passed to a single-statement API such as
`Connection::execute` (which prepares only the first statement and then
fails the call via `check_no_tail`). -/
inductive SqErr where
  | queryReturnedNoRows
  | uniqueViolation
  | multipleStatement
  | tableExists
  | noSuchTable
deriving DecidableEq

/-- The `wrm_index::Error` type (the variants the embedded operations can hit). -/
inductive IndexErr where
  | sqlite (e : SqErr)
  | io
  | unknownEntryType (s : String)
deriving DecidableEq

/-- Models `EntryType::from_str`: case-insensitive kind-token vocabulary. -/
def entryTypeFromStr (s : String) : Except IndexErr EntryType :=
  match toLowerStr s with
  | "constant" => .ok .Constant
  | "enum" => .ok .Enum
  | "fn" => .ok .Function
  | "function" => .ok .Function
  | "macro" => .ok .Macro
  | "method" => .ok .Method
  | "module" => .ok .Module
  | "struct" => .ok .Struct
  | "trait" => .ok .Trait
  | "type" => .ok .Typ
  | "variant" => .ok .Variant
  | "attr" => .ok .Attribute
  | "attribute" => .ok .Attribute
  | _ => .error (.unknownEntryType s)

/-- The `wrm_index::DocsetEntry` record; `path` is the relative location string as
eventually stored (with any `#fragment` suffix already appended). -/
structure DocsetEntry where
  name : String
  ty : EntryType
  path : String
deriving DecidableEq

/-- A file as the walker sees it: raw text (read for the redirection
check) plus the DOM that `Document::from` would produce from it. -/
structure FileContent where
  raw : String
  dom : Node

mutual
/-- The docset directory tree handed to `recursive_walk`. -/
inductive FsEntry where
  | file (name : String) (content : FileContent)
  | dir (name : String) (children : FsList)

inductive FsList where
  | nil
  | cons (e : FsEntry) (l : FsList)
end

def FsEntry.nameOf : FsEntry → String
  | .file n _ => n
  | .dir n _ => n

/-- The `ROOT_SKIP_DIRS` constant. -/
def ROOT_SKIP_DIRS : List String := ["src", "implementors"]

/-! ### Redirection check -/

def headCloseTag : List Char := "</head>".data

def redirSentinel : List Char := "<title>Redirection</title>".data

/-- The accumulation loop of `check_if_redirection`: read line by line,
stopping after the first line containing the head-close tag (or at end of
file), and return everything read. -/
def readHeadLines : List (List Char) → List Char
  | [] => []
  | l :: ls =>
    if containsSubL l headCloseTag then l else l ++ readHeadLines ls

/-- Models `check_if_redirection`: does the portion read by the loop contain the
redirection sentinel title? -/
def checkIfRedirection (raw : String) : Bool :=
  containsSubL (readHeadLines (splitLinesNl raw.data)) redirSentinel

/-! ### Entry classifier and nested-item extractor -/

/-- Rust `Path::extension` on a file name (`None` when there is no dot or
for a bare leading-dot name like `".html"`). -/
def extOf (name : String) : Option String :=
  match splitParts '.' name with
  | [_] => none
  | ["", _] => none
  | ps => ps.getLast?

/-- Models `parse_enum_variants`: every `section.variant` element with an id of
the shape `variant.{Name}` yields a `Variant` entry `{parent}::{Name}`
located at `{file}#{id}`. -/
def parseEnumVariants (relSegs : List String) (parent : String) (dom : Node) :
    List DocsetEntry :=
  (collectNodes (fun n => n.tag == "section" && hasClass "variant" n) dom).filterMap
    fun n =>
      match n.idAttr with
      | none => none
      | some i =>
        match stripPre "variant.".data i.data with
        | none => none
        | some v =>
          some ⟨parent ++ "::" ++ String.mk v, .Variant, pathStrOf relSegs ++ "#" ++ i⟩

/-- Models `parse_impl_methods`: inside every `div.impl-items` block, every
`details.toggle.method-toggle` whose first `section.method` descendant has
an id `method.{name}` yields a `Method` entry `{parent}::{name}` located
at `{file}#{id}`. -/
def parseImplMethods (relSegs : List String) (parent : String) (dom : Node) :
    List DocsetEntry :=
  (collectNodes (fun n => n.tag == "div" && hasClass "impl-items" n) dom).flatMap
    fun impl =>
      (selectIn (fun n =>
          n.tag == "details" && hasClass "toggle" n && hasClass "method-toggle" n) impl).filterMap
        fun det =>
          match (selectIn (fun n => n.tag == "section" && hasClass "method" n) det).head? with
          | none => none
          | some sec =>
            match sec.idAttr with
            | none => none
            | some sid =>
              match stripPre "method.".data sid.data with
              | none => none
              | some m =>
                some ⟨parent ++ "::" ++ String.mk m, .Method, pathStrOf relSegs ++ "#" ++ sid⟩

/-- Models `parse_rustdoc_file`.  `relDirSegs` is the containing directory's path
relative to the docset root (what `strip_prefix(root)` leaves), and
`modulePath` the accumulated module path. -/
def parseRustdocFile (relDirSegs : List String) (modulePath : String)
    (fileName : String) (c : FileContent) : Except IndexErr (List DocsetEntry) :=
  if extOf fileName ≠ some "html" then .ok []
  else if checkIfRedirection c.raw then .ok []
  else
    let relSegs := relDirSegs ++ [fileName]
    match splitParts '.' fileName with
    | [p0, _] =>
      if p0 = "index" then
        .ok [⟨modPathStrOf relDirSegs, .Module, pathStrOf relSegs⟩]
      else .ok []
    | [p0, p1, _] =>
      let name := if modulePath = "" then p1 else modulePath ++ "::" ++ p1
      match entryTypeFromStr p0 with
      | .error e => .error e
      | .ok ty =>
        let methods :=
          if ty = .Struct ∨ ty = .Enum ∨ ty = .Trait then
            parseImplMethods relSegs name c.dom
          else []
        let variants :=
          if ty = .Enum ∨ ty = .Typ then parseEnumVariants relSegs name c.dom
          else []
        .ok (methods ++ variants ++ [⟨name, ty, pathStrOf relSegs⟩])
    | _ => .ok []

/-! ### Docset walker -/

mutual
/-- Models `recursive_walk`, one directory entry.  `relPath` is the current
directory's path relative to the docset root; a directory's own relative
path equals its bare name exactly when `relPath` is empty. -/
def walkOne (relPath : List String) (modulePath : String) :
    FsEntry → Except IndexErr (List DocsetEntry)
  | .file name c => parseRustdocFile relPath modulePath name c
  | .dir name children =>
    if modulePath = "" then
      if ROOT_SKIP_DIRS.contains name then .ok []
      else walkList (relPath ++ [name]) (if relPath = [] then "" else name) children
    else walkList (relPath ++ [name]) (modulePath ++ "::" ++ name) children

/-- Models `recursive_walk`, the `read_dir` loop over a directory's entries. -/
def walkList (relPath : List String) (modulePath : String) :
    FsList → Except IndexErr (List DocsetEntry)
  | .nil => .ok []
  | .cons e rest => do
    let es ← walkOne relPath modulePath e
    let more ← walkList relPath modulePath rest
    pure (es ++ more)
end

/-! ### Index store -/

/-- One persisted `searchIndex` row (the `id` column is ignored). -/
structure Row where
  name : String
  ty : String
  path : String
deriving DecidableEq

def DocsetEntry.toRow (e : DocsetEntry) : Row := ⟨e.name, e.ty.toStr, e.path⟩

/-- The state of the persisted `searchIndex` table: its rows and whether
the `anchor` unique index over `(name, type, path)` exists. -/
structure DbTable where
  rows : List Row
  hasAnchorIndex : Bool
deriving DecidableEq

/-- The database state; `none` = no `searchIndex` table. -/
abbrev DbState := Option DbTable

/-- The schema-changing SQL statements `generate_sqlite_index` writes. -/
inductive SqlStmt where
  | dropTableIfExists
  | createTable
  | createUniqueIndex

/-- Effect of one schema statement on the store. -/
def execStmt (db : DbState) : SqlStmt → Except IndexErr DbState
  | .dropTableIfExists => .ok none
  | .createTable =>
    match db with
    | none => .ok (some ⟨[], false⟩)
    | some _ => .error (.sqlite .tableExists)
  | .createUniqueIndex =>
    match db with
    | none => .error (.sqlite .noSuchTable)
    | some t => .ok (some ⟨t.rows, true⟩)

/-- Models rusqlite's `Connection::execute`, a single-statement API: the
SQL text is prepared as its first statement, and when further statements
remain in the text, `check_no_tail` fails the whole call with
`MultipleStatement` — no statement is executed. -/
def connExecute (db : DbState) : List SqlStmt → Except IndexErr DbState
  | [s] => execStmt db s
  | _ => .error (.sqlite .multipleStatement)

/-- The prepared `INSERT` loop inside the transaction, one
`Statement::execute` per entry: with the `anchor` unique index present a
duplicate `(name, type, path)` row is rejected; without it SQLite appends
the row unchecked. -/
def insertRowsTx (t : DbTable) : List Row → Except IndexErr DbTable
  | [] => .ok t
  | r :: rs =>
    if t.hasAnchorIndex ∧ r ∈ t.rows then .error (.sqlite .uniqueViolation)
    else insertRowsTx ⟨t.rows ++ [r], t.hasAnchorIndex⟩ rs

/-- Models `generate_sqlite_index`: one `execute` call with the single
`DROP TABLE IF EXISTS` statement, then one `execute` call carrying the
`CREATE TABLE` *and* `CREATE UNIQUE INDEX` statements together — which the
single-statement `Connection::execute` rejects with `MultipleStatement`
before running either — then (never reached) the transactional insert
loop.  Every run therefore errors with the table left dropped, no unique
index ever created, and no row inserted. -/
def generateSqliteIndex (db : DbState) (entries : List DocsetEntry) :
    Except IndexErr DbState := do
  let db ← connExecute db [.dropTableIfExists]
  let db ← connExecute db [.createTable, .createUniqueIndex]
  match db with
  | none => .error (.sqlite .noSuchTable)
  | some t => do
    let t ← insertRowsTx t (entries.map DocsetEntry.toRow)
    pure (some t)

/-- Models `wrm_index::index`: walk the docset, then rebuild the store. -/
def indexBuild (db : DbState) (root : FsList) :
    Except IndexErr DbState := do
  let es ← walkList [] "" root
  generateSqliteIndex db es

/-! ### Search engine (`search_crate_type_definitions`) -/

/-- SQLite `LIKE`, default (ASCII case-insensitive) collation: `%` matches
any run of characters, `_` any single character. -/
def likeMatch : List Char → List Char → Bool
  | [], s => s.isEmpty
  | p :: ps, s =>
    if p = '%' then (suffixesOf s).any (fun t => likeMatch ps t)
    else if p = '_' then
      match s with
      | [] => false
      | _ :: s2 => likeMatch ps s2
    else
      match s with
      | [] => false
      | c :: s2 => (p.toLower == c.toLower) && likeMatch ps s2

/-- The `ORDER BY CASE` ranking tier of a row for the wildcard-stripped
query. -/
def rowTier (exact : String) (r : Row) : Nat :=
  if r.name = exact then 0
  else if r.path = exact then 1
  else if likeMatch ('%' :: exact.data) r.name.data then 2
  else if likeMatch (exact.data ++ ['%']) r.name.data then 3
  else if likeMatch ('%' :: exact.data) r.path.data then 4
  else if likeMatch (exact.data ++ ['%']) r.path.data then 5
  else 6

/-- Boolean comparison implementing the full sort key:
tier, then `length(name)`, then `length(path)`. -/
def rowLeB (exact : String) (a b : Row) : Bool :=
  decide (rowTier exact a < rowTier exact b) ||
    (decide (rowTier exact a = rowTier exact b) &&
      (decide (a.name.length < b.name.length) ||
        (decide (a.name.length = b.name.length) &&
          decide (a.path.length ≤ b.path.length))))

def rowLe (exact : String) (a b : Row) : Prop := rowLeB exact a b = true

instance (exact : String) : DecidableRel (rowLe exact) :=
  fun a b => inferInstanceAs (Decidable (_ = true))

instance (exact : String) : IsTotal Row (rowLe exact) := by
  constructor
  intro a b
  simp only [rowLe, rowLeB, Bool.or_eq_true, Bool.and_eq_true, decide_eq_true_eq]
  omega

instance (exact : String) : IsTrans Row (rowLe exact) := by
  constructor
  intro a b c
  simp only [rowLe, rowLeB, Bool.or_eq_true, Bool.and_eq_true, decide_eq_true_eq]
  omega

/-- The wildcard-stripped query: `query.replace('%', "")`. -/
def stripPercent (query : String) : String :=
  String.mk (query.data.filter (fun c => c ≠ '%'))

/-- The fuzzy pattern built from the caller's query. -/
def fuzzyPattern (query : String) : List Char :=
  if query.data = [] then ['%']
  else if query.data.head? = some '%' ∨ query.data.getLast? = some '%' then query.data
  else '%' :: (query.data.map (fun c => if c = ' ' then '%' else c)) ++ ['%']

/-- The search query of `search_crate_type_definitions`: filter by fuzzy
match on name or path and by kind, order by tier then lengths, truncate to
the limit (`u32::MAX` when absent), and project the `path` column. -/
def searchTypeDefinitions (table : List Row) (query : String)
    (kinds : List EntryType) (limit : Option Nat) : List String :=
  let kinds := if kinds.isEmpty then EntryType.all else kinds
  let kindStrs := kinds.map EntryType.toStr
  let exact := stripPercent query
  let fuzzy := fuzzyPattern query
  let matched := table.filter
    (fun r => (likeMatch fuzzy r.name.data || likeMatch fuzzy r.path.data) &&
      kindStrs.contains r.ty)
  let sorted := matched.insertionSort (rowLe exact)
  (sorted.map (fun r => r.path)).take (limit.getD 4294967295)

/-! ### Fragment resolver (`wrm_docs`) -/

/-- The `wrm_docs::Error` type (the variants the embedded `item` can hit). -/
inductive DocsError where
  | missingDocs
  | notFound
  | io
  | sqlite (e : SqErr)
deriving DecidableEq

/-- The `wrm_docs::Item` record. -/
structure Item where
  path : String
  kind : String
  typeInfo : Option String
  documentation : Option String
  srcPath : Option String
deriving DecidableEq

/-- One step of tree context: everything about the parent element except
the hole, with the current node's left siblings kept reversed. -/
structure Frame where
  tag : String
  idAttr : Option String
  classes : List String
  href : Option String
  leftRev : List Node
  right : List Node

/-- A node together with its position in the document: the zipper the
sibling/parent navigation of `find_documentation` needs. -/
structure Loc where
  cur : Node
  ctx : List Frame

/-- Rebuild the parent element of a location from its frame. -/
def Node.ofFrame (f : Frame) (cur : Node) : Node :=
  .mk f.tag f.idAttr f.classes f.href (NodeList.ofList (f.leftRev.reverse ++ cur :: f.right))

/-- Models `Selection::next_sibling` as a zipper move. -/
def nextSibLoc (loc : Loc) : Option Loc :=
  match loc.ctx with
  | [] => none
  | f :: fs =>
    match f.right with
    | [] => none
    | r :: rs =>
      some ⟨r, ⟨f.tag, f.idAttr, f.classes, f.href, loc.cur :: f.leftRev, rs⟩ :: fs⟩

/-- Models `Selection::parent` as a zipper move (`none` when the selection is the
document root, where `parent()` is empty). -/
def parentLoc (loc : Loc) : Option Loc :=
  match loc.ctx with
  | [] => none
  | f :: fs => some ⟨Node.ofFrame f loc.cur, fs⟩

mutual
/-- First node (preorder) satisfying `p`, returned with its context:
`document.select(..).iter().next()` for an id selector. -/
def findLocN (p : Node → Bool) (ctx : List Frame) :
    Node → Option Loc
  | .mk tag i cls href children =>
    if p (.mk tag i cls href children) then some ⟨.mk tag i cls href children, ctx⟩
    else findLocL p tag i cls href ctx [] children

def findLocL (p : Node → Bool) (tag : String) (i : Option String)
    (cls : List String) (href : Option String) (ctx : List Frame)
    (leftRev : List Node) : NodeList → Option Loc
  | .nil => none
  | .cons c rest =>
    match findLocN p (⟨tag, i, cls, href, leftRev, rest.toList⟩ :: ctx) c with
    | some l => some l
    | none => findLocL p tag i cls href ctx (c :: leftRev) rest
end

/-- Everything strictly after a frame's hole in postorder: the right
siblings' subtrees plus the parent node itself. -/
def frameAfter (f : Frame) : Nat := sizeNodes f.right + 1

def ctxAfter : List Frame → Nat
  | [] => 0
  | f :: fs => frameAfter f + ctxAfter fs

/-- Number of document nodes strictly after the current subtree in
postorder — the measure that shrinks on every move `find_documentation`
makes. -/
def locMeasure (loc : Loc) : Nat := ctxAfter loc.ctx

/-- Models `find_documentation`, with explicit fuel (`none` = fuel ran out):
return the current element's markup if it carries the `docblock` class,
else try the next sibling (returning the sibling's markup when the search
inside it succeeds), else retry from the parent, giving up at the root. -/
def findDocFuel : Nat → Loc → Option (Option String)
  | 0, _ => none
  | n + 1, loc =>
    if hasClass "docblock" loc.cur then some (some (innerHtml loc.cur))
    else
      let sib : Option (Option String) :=
        match nextSibLoc loc with
        | none => some none
        | some sl =>
          match findDocFuel n sl with
          | none => none
          | some (some _) => some (some (innerHtml sl.cur))
          | some none => some none
      match sib with
      | none => none
      | some (some r) => some (some r)
      | some none =>
        match parentLoc loc with
        | none => some none
        | some pl => findDocFuel n pl

/-- Models `find_documentation`: run with enough fuel for the whole document
(justified by `c9_find_documentation_terminates`). -/
def findDocumentation (loc : Loc) : Option String :=
  match findDocFuel (locMeasure loc + 1) loc with
  | some r => r
  | none => none

mutual
/-- The `select("#trait-implementations-list .impl-items").remove()` noise
reduction: drop every `impl-items`-classed subtree that sits below the
trait-implementations container. -/
def stripTraitImpls (inside : Bool) : Node → Node
  | .mk tag i cls href children =>
    .mk tag i cls href
      (stripTraitImplsL (inside || (i == some "trait-implementations-list")) children)

def stripTraitImplsL (inside : Bool) : NodeList → NodeList
  | .nil => .nil
  | .cons c rest =>
    if inside && hasClass "impl-items" c then stripTraitImplsL inside rest
    else .cons (stripTraitImpls inside c) (stripTraitImplsL inside rest)
end

/-- Look up a direct child of a directory listing by name. -/
def findChild : FsList → String → Option FsEntry
  | .nil, _ => none
  | .cons e l, n => if e.nameOf = n then some e else findChild l n

/-- Read a file at a relative segment path under the docset root. -/
def fileAt : FsList → List String → Option FileContent
  | _, [] => none
  | l, [n] =>
    match findChild l n with
    | some (.file _ c) => some c
    | _ => none
  | l, n :: rest =>
    match findChild l n with
    | some (.dir _ l2) => fileAt l2 rest
    | _ => none

/-- Does a relative segment path name an existing file or directory? -/
def pathExistsFs : FsList → List String → Bool
  | _, [] => true
  | l, n :: rest =>
    match findChild l n with
    | some (.dir _ l2) => pathExistsFs l2 rest
    | some (.file _ _) => rest.isEmpty
    | none => false

/-- Resolve `.`/`..`/empty segments; `none` when the path escapes the
docset root (where the later `strip_prefix(root)` would fail). -/
def normSegsAux (acc : List String) : List String → Option (List String)
  | [] => some acc.reverse
  | s :: rest =>
    if s = "." ∨ s = "" then normSegsAux acc rest
    else if s = ".." then
      match acc with
      | [] => none
      | _ :: a => normSegsAux a rest
    else normSegsAux (s :: acc) rest

def splitSlashStr (s : String) : List String := splitParts '/' s

/-- The source-link resolution of `Docs::item`: first `a.src` descendant,
split its href at `#`, resolve relative to the entry file's directory
(`canonicalize` requires the target to exist), and express it relative to
the docset root with the anchor re-appended.  Every failure is `none`. -/
def resolveSrcPath (fsRoot : FsList) (filePath : String) (el : Node) : Option String :=
  match (selectIn (fun n => n.tag == "a" && hasClass "src" n) el).head? with
  | none => none
  | some a =>
    match a.href with
    | none => none
    | some href =>
      let sf := splitOnceHash href
      let joined := (splitSlashStr filePath).dropLast ++ splitSlashStr sf.1
      match normSegsAux [] joined with
      | none => none
      | some segs =>
        if pathExistsFs fsRoot segs then
          some ("/" ++ pathStrOf segs ++ "#" ++ sf.2)
        else none

/-- Models `Docs::item`: split the argument at its last `#`, look the file path
up in `searchIndex` (fragment ignored by the SQL key), load and parse the
file, select `#main-content` or the fragment's element, and assemble the
`Item`. -/
def docsItem (fsRoot : FsList) (table : List Row) (arg : String) :
    Except DocsError Item :=
  let pf := rsplitOnceHash arg
  let p := pf.1
  let frag := pf.2
  match table.find? (fun r => r.path == p) with
  | none => .error (.sqlite .queryReturnedNoRows)
  | some row =>
    match fileAt fsRoot (splitSlashStr p) with
    | none => .error .io
    | some content =>
      let pred : Node → Bool :=
        if frag = "" then fun n => n.idAttr == some "main-content"
        else fun n => n.idAttr == some frag
      match findLocN pred [] content.dom with
      | none => .error .notFound
      | some loc =>
        let typeInfo := if frag = "" then none else some (innerHtml loc.cur)
        let elem := if frag = "" then stripTraitImpls false loc.cur else loc.cur
        let documentation :=
          if frag = "" then some (innerHtml elem) else findDocumentation loc
        .ok ⟨row.name, row.ty, typeInfo, documentation, resolveSrcPath fsRoot p elem⟩

/-! ### Concrete docsets used by witnesses and counterexamples -/

/-- A harmless non-redirection file with an empty DOM. -/
def plainContent : FileContent := ⟨"x", .mk "html" none [] none .nil⟩

def c1section : Node := .mk "section" (some "variant.Array") ["variant"] none .nil

def c1dom : Node := .mk "html" none [] none (.cons c1section .nil)

def c1content : FileContent := ⟨"x", c1dom⟩

/-- A docset holding one enum page with a `variant.Array` section. -/
def c1fs : FsList := .cons (.file "enum.Value.html" c1content) .nil

def c1entries : List DocsetEntry :=
  [⟨"Value::Array", .Variant, "enum.Value.html#variant.Array"⟩,
   ⟨"Value", .Enum, "enum.Value.html"⟩]

def c1table : List Row :=
  [⟨"Value::Array", "Variant", "enum.Value.html#variant.Array"⟩,
   ⟨"Value", "Enum", "enum.Value.html"⟩]

def c1row : Row := ⟨"Value", "Enum", "enum.Value.html"⟩

def c1loc : Loc := ⟨c1section, [⟨"html", none, [], none, [], []⟩]⟩

def c2e1 : DocsetEntry := ⟨"bar", .Function, "a/fn.bar.html"⟩

def c2e2 : DocsetEntry := ⟨"bar", .Function, "bb/fn.bar.html"⟩

/-- Two top-level directories both holding a `fn.bar.html` page: the
walker produces two entries that share the name "bar". -/
def c2tree : FsList :=
  .cons (.dir "a" (.cons (.file "fn.bar.html" plainContent) .nil))
    (.cons (.dir "bb" (.cons (.file "fn.bar.html" plainContent) .nil)) .nil)

/-- A classifiable page hidden under `foo/src`, one level below the top. -/
def c3tree : FsList :=
  .cons (.dir "foo"
    (.cons (.dir "src" (.cons (.file "struct.X.html" plainContent) .nil)) .nil)) .nil

/-- A redirection page: no head-close line, so the loop reads to EOF and
finds the sentinel. -/
def redirContent : FileContent :=
  ⟨"<title>Redirection</title>", .mk "html" none [] none .nil⟩

/-- The sentinel sits within the first 512 bytes but only after the line
holding the head-close tag. -/
def lateSentinelContent : FileContent :=
  ⟨"</head>\n<title>Redirection</title>", .mk "html" none [] none .nil⟩

def c7e : DocsetEntry := ⟨"dup::Entry", .Struct, "dup/struct.Entry.html"⟩

def c8e1 : DocsetEntry := ⟨"one", .Function, "m/fn.one.html"⟩

def c8e2 : DocsetEntry := ⟨"two", .Function, "m/fn.two.html"⟩

def c8tree : FsList :=
  .cons (.dir "m"
    (.cons (.file "fn.one.html" plainContent)
      (.cons (.file "fn.two.html" plainContent) .nil))) .nil

/-! ## Theorems

General lemmas first, then one theorem per claim (with its witness or
counterexample where required). -/

/-! ### Index store claims -/

/-- C7: the uniqueness rejection the claim describes never happens: the
`CREATE TABLE; CREATE UNIQUE INDEX` pair goes through the single-statement
`Connection::execute`, so every build — the duplicated entry list
included — fails with `MultipleStatement` at that call, before the unique
index exists and before any insert runs; the store is left with the
`searchIndex` table dropped, never holding two identical rows (or any row
at all). -/
theorem c7_no_unique_constraint :
    (∀ (db : DbState) (entries : List DocsetEntry),
        generateSqliteIndex db entries = .error (.sqlite .multipleStatement)) ∧
      generateSqliteIndex none [c7e, c7e] = .error (.sqlite .multipleStatement) :=
  ⟨fun _ _ => rfl, rfl⟩

/-- C8: rebuilding the index from an unchanged docset twice behaves
identically regardless of the previous store state, but never yields a
row set: the walker succeeds, and every build then fails with
`MultipleStatement` at the two-statement `CREATE` call, so no
`searchIndex` table (no row set) is ever produced. -/
theorem c8_rebuild_always_fails :
    walkList [] "" c8tree = .ok [c8e1, c8e2] ∧
      indexBuild none c8tree = .error (.sqlite .multipleStatement) ∧
      (∀ db : DbState, indexBuild db c8tree = indexBuild none c8tree) :=
  ⟨by decide, rfl, fun _ => rfl⟩

/-! ### Walker and classifier claims -/

/-- C3 counterexample: a docset whose only classifiable file sits in a
`src` directory one level below the docset root (inside the module-path
neutral top-level directory `foo`) yields no entries at all, although the
file on its own classifies fine — so a `src` directory at a deeper level
is not "traversed normally with its files classified". -/
theorem c3_counterexample :
    walkList [] "" c3tree = .ok [] ∧
      parseRustdocFile ["foo", "src"] "" "struct.X.html" plainContent =
        .ok [⟨"X", .Struct, "foo/src/struct.X.html"⟩] := by decide

/-- C3 (amended): the excluded directory names cause a directory to be
skipped whenever it is encountered with an *empty accumulated module
path* — at the top level, or nested below directories that contributed no
module-path segment — while a directory with such a name reached with a
non-empty module path is traversed normally. -/
theorem c3_skip_dirs_amended (relPath : List String) (mp name : String)
    (children : FsList) (hskip : name ∈ ROOT_SKIP_DIRS) (hmp : mp ≠ "") :
    walkOne relPath "" (.dir name children) = .ok [] ∧
      walkOne relPath mp (.dir name children) =
        walkList (relPath ++ [name]) (mp ++ "::" ++ name) children := by
  have hc : ROOT_SKIP_DIRS.contains name = true := by
    simp [List.contains, List.elem_eq_mem, hskip]
  constructor
  · simp only [walkOne]
    simp [hc]
    exact fun h => absurd hskip h
  · simp [walkOne, hmp]

/-- Witness for C3 at the directory name "src" under module path "m". -/
theorem c3_witness :
    ("src" ∈ ROOT_SKIP_DIRS ∧ ("m" : String) ≠ "") ∧
      walkOne ["crate1"] "" (.dir "src" .nil) = .ok [] ∧
      walkOne ["crate1"] "m" (.dir "src" .nil) =
        walkList (["crate1"] ++ ["src"]) ("m" ++ "::" ++ "src") .nil :=
  ⟨⟨by decide, by decide⟩,
    c3_skip_dirs_amended ["crate1"] "m" "src" .nil (by decide) (by decide)⟩

/-- C10: every top-level directory not in the skip list is recursed into
with the module path left empty, whatever its name; only directories
encountered at deeper nesting levels (or under a non-empty module path)
extend the module path with their name. -/
theorem c10_top_level_neutral (name : String) (children : FsList)
    (relPath : List String) (mp : String)
    (hskip : name ∉ ROOT_SKIP_DIRS) (hrel : relPath ≠ []) (hmp : mp ≠ "") :
    walkOne [] "" (.dir name children) = walkList [name] "" children ∧
      walkOne relPath "" (.dir name children) =
        walkList (relPath ++ [name]) name children ∧
      walkOne relPath mp (.dir name children) =
        walkList (relPath ++ [name]) (mp ++ "::" ++ name) children := by
  have hc : ROOT_SKIP_DIRS.contains name = false := by
    simp [List.contains, List.elem_eq_mem, hskip]
  refine ⟨?_, ?_, ?_⟩
  · simp only [walkOne]
    simp [hc]
    exact fun h => absurd h hskip
  · simp only [walkOne]
    simp [hc, hrel]
    exact fun h => absurd h hskip
  · simp only [walkOne]
    simp [hmp]

/-- Witness for C10: a top-level directory named like a crate. -/
theorem c10_witness :
    ("alloc" ∉ ROOT_SKIP_DIRS ∧ (["d"] : List String) ≠ [] ∧ ("m" : String) ≠ "") ∧
      walkOne [] "" (.dir "alloc" .nil) = walkList ["alloc"] "" .nil ∧
      walkOne ["d"] "" (.dir "alloc" .nil) =
        walkList (["d"] ++ ["alloc"]) "alloc" .nil ∧
      walkOne ["d"] "m" (.dir "alloc" .nil) =
        walkList (["d"] ++ ["alloc"]) ("m" ++ "::" ++ "alloc") .nil :=
  ⟨⟨by decide, by decide, by decide⟩,
    c10_top_level_neutral "alloc" .nil ["d"] "m" (by decide) (by decide) (by decide)⟩

/-- C5 counterexample: an HTML file whose three-segment name has the
unrecognized kind token "bogus" but whose content is a redirection page is
skipped with zero entries instead of aborting the run, so the claim fails
for redirection pages. -/
theorem c5_counterexample :
    splitParts '.' "bogus.Foo.html" = ["bogus", "Foo", "html"] ∧
      entryTypeFromStr "bogus" = .error (.unknownEntryType "bogus") ∧
      parseRustdocFile [] "" "bogus.Foo.html" redirContent = .ok [] ∧
      walkList [] "" (.cons (.file "bogus.Foo.html" redirContent) .nil) = .ok [] := by
  decide

/-- C5 (amended): for a *non-redirection* HTML file with a three-segment
name whose first segment is not in the kind vocabulary, classification
fails with `UnknownEntryType`, and a directory listing containing such a
file makes the walk return that error — the run aborts with no per-file
recovery. -/
theorem c5_unknown_kind_amended (relPath : List String) (mp name k sym : String)
    (c : FileContent) (rest : FsList)
    (hsplit : splitParts '.' name = [k, sym, "html"])
    (hredir : checkIfRedirection c.raw = false)
    (herr : entryTypeFromStr k = .error (.unknownEntryType k)) :
    parseRustdocFile relPath mp name c = .error (.unknownEntryType k) ∧
      walkList relPath mp (.cons (.file name c) rest) =
        .error (.unknownEntryType k) := by
  have hext : extOf name = some "html" := by
    simp [extOf, hsplit]
  have h1 : parseRustdocFile relPath mp name c = .error (.unknownEntryType k) := by
    simp [parseRustdocFile, hext, hredir, hsplit, herr]
  refine ⟨h1, ?_⟩
  simp only [walkList, walkOne, h1]
  rfl

/-- Witness for C5 at the kind token "frob". -/
theorem c5_witness :
    (splitParts '.' "frob.Thing.html" = ["frob", "Thing", "html"] ∧
        checkIfRedirection plainContent.raw = false ∧
        entryTypeFromStr "frob" = .error (.unknownEntryType "frob")) ∧
      parseRustdocFile [] "" "frob.Thing.html" plainContent =
        .error (.unknownEntryType "frob") ∧
      walkList [] "" (.cons (.file "frob.Thing.html" plainContent) .nil) =
        .error (.unknownEntryType "frob") :=
  ⟨⟨by decide, by decide, by decide⟩,
    c5_unknown_kind_amended [] "" "frob.Thing.html" "frob" "Thing" plainContent .nil
      (by decide) (by decide) (by decide)⟩

/-- C6 counterexample: the redirection sentinel sits within the first 512
bytes, but on a line after the one containing the head-close tag, so the
accumulation loop never sees it: the file classifies normally and yields
an entry instead of zero. -/
theorem c6_counterexample :
    containsSubL (lateSentinelContent.raw.data.take 512) redirSentinel = true ∧
      parseRustdocFile [] "" "struct.Foo.html" lateSentinelContent =
        .ok [⟨"Foo", .Struct, "struct.Foo.html"⟩] := by decide

/-- C6 (amended): a file on which the redirection check fires — the
sentinel occurs in the portion the loop reads, i.e. the lines up to and
including the first line containing the head-close tag — yields zero
entries regardless of its filename shape; and that decision reads only
this bounded prefix: once some line contains the head-close tag, anything
appended after the listed lines cannot change what the loop reads. -/
theorem c6_redirection_amended (relPath : List String) (mp name : String)
    (c : FileContent) (ls extra : List (List Char))
    (hredir : checkIfRedirection c.raw = true)
    (hhead : ∃ l ∈ ls, containsSubL l headCloseTag = true) :
    parseRustdocFile relPath mp name c = .ok [] ∧
      readHeadLines (ls ++ extra) = readHeadLines ls := by
  constructor
  · by_cases hx : extOf name = some "html"
    · simp [parseRustdocFile, hx, hredir]
    · simp [parseRustdocFile, hx]
  · clear hredir
    induction ls with
    | nil => simp at hhead
    | cons a as ih =>
      by_cases ha : containsSubL a headCloseTag = true
      · simp [readHeadLines, ha]
      · obtain ⟨l, hl, hc⟩ := hhead
        rcases List.mem_cons.mp hl with rfl | hl2
        · exact absurd hc ha
        · have hih := ih ⟨l, hl2, hc⟩
          simp only [List.cons_append, readHeadLines, if_neg ha]
          rw [show (as.append extra) = as ++ extra from rfl, hih]

/-- Witness for C6: a redirection page named like a struct page yields no
entries, and reading past the head-close line is irrelevant. -/
theorem c6_witness :
    (checkIfRedirection redirContent.raw = true ∧
        ∃ l ∈ ["</head>".data], containsSubL l headCloseTag = true) ∧
      parseRustdocFile [] "" "struct.Gone.html" redirContent = .ok [] ∧
      readHeadLines (["</head>".data] ++ ["zzz".data]) =
        readHeadLines ["</head>".data] :=
  ⟨⟨by decide, by decide⟩,
    c6_redirection_amended [] "" "struct.Gone.html" redirContent
      ["</head>".data] ["zzz".data] (by decide) (by decide)⟩

/-! ### Documentation search termination (C9) -/

theorem nodeSize_pos (n : Node) : 1 ≤ nodeSize n := by
  cases n with
  | mk tag i cls href children => simp [nodeSize]

theorem locMeasure_nextSib {loc sl : Loc} (h : nextSibLoc loc = some sl) :
    locMeasure sl < locMeasure loc := by
  obtain ⟨cur, ctx⟩ := loc
  cases ctx with
  | nil => simp [nextSibLoc] at h
  | cons f fs =>
    obtain ⟨tg, ia, cl, hf, lrev, rt⟩ := f
    cases rt with
    | nil => simp [nextSibLoc] at h
    | cons r rs =>
      simp only [nextSibLoc] at h
      injection h with h2
      subst h2
      simp only [locMeasure, ctxAfter, frameAfter, sizeNodes]
      have := nodeSize_pos r
      omega

theorem locMeasure_parent {loc pl : Loc} (h : parentLoc loc = some pl) :
    locMeasure pl < locMeasure loc := by
  obtain ⟨cur, ctx⟩ := loc
  cases ctx with
  | nil => simp [parentLoc] at h
  | cons f fs =>
    simp only [parentLoc] at h
    injection h with h2
    subst h2
    simp only [locMeasure, ctxAfter, frameAfter]
    omega

theorem findDocFuel_isSome : ∀ (n : Nat) (loc : Loc), locMeasure loc < n →
    (findDocFuel n loc).isSome = true := by
  intro n
  induction n with
  | zero => intro loc h; omega
  | succ m ih =>
    intro loc h
    simp only [findDocFuel]
    by_cases hdb : hasClass "docblock" loc.cur = true
    · simp [hdb]
    · simp only [Bool.not_eq_true] at hdb
      simp only [hdb, if_false]
      cases hs : nextSibLoc loc with
      | none =>
        cases hp : parentLoc loc with
        | none => simp [hp]
        | some pl =>
          have hlt := locMeasure_parent hp
          simp only [hp]
          exact ih pl (by omega)
      | some sl =>
        have hlt := locMeasure_nextSib hs
        have h2 := ih sl (by omega)
        cases hfs : findDocFuel m sl with
        | none => rw [hfs] at h2; cases h2
        | some r =>
          cases r with
          | none =>
            simp only [hfs]
            cases hp : parentLoc loc with
            | none => simp [hp]
            | some pl =>
              have hlt2 := locMeasure_parent hp
              simp only [hp]
              exact ih pl (by omega)
          | some v => simp [hfs]

/-- C9: the recursive documentation search terminates on every finite
document: with fuel bounded by the document structure itself (the number
of nodes after the current position in postorder, plus one) the
fuel-indexed `find_documentation` never runs out, returning a definite
answer — the first match found, or none once no parent remains — and
`findDocumentation` returns exactly that answer. -/
theorem c9_find_documentation_terminates (loc : Loc) :
    ∃ r : Option String, findDocFuel (locMeasure loc + 1) loc = some r ∧
      findDocumentation loc = r := by
  have h := findDocFuel_isSome (locMeasure loc + 1) loc (by omega)
  cases heq : findDocFuel (locMeasure loc + 1) loc with
  | none => rw [heq] at h; cases h
  | some r => exact ⟨r, rfl, by simp [findDocumentation, heq]⟩

/-! ### Fragment resolver claims -/

/-- C4 counterexample: resolving an item whose `(file_path, fragment)`
key has no row in the Index Store fails with the wrapped SQLite
"no rows" error, which is a different variant from `NotFound`. -/
theorem c4_counterexample :
    docsItem .nil [] "x.html" = .error (.sqlite .queryReturnedNoRows) ∧
      (Except.error (DocsError.sqlite .queryReturnedNoRows) : Except DocsError Item) ≠
        .error .notFound := by decide

/-- C4 (amended): when no `searchIndex` row matches the file-path part of
the requested key, `Docs::item` fails with the propagated SQLite
`QueryReturnedNoRows` error (wrapped in the `Sqlite` variant), not with
`NotFound`; `NotFound` is reserved for missing HTML elements. -/
theorem c4_missing_row_amended (fsRoot : FsList) (table : List Row) (arg : String)
    (h : table.find? (fun r => r.path == (rsplitOnceHash arg).1) = none) :
    docsItem fsRoot table arg = .error (.sqlite .queryReturnedNoRows) := by
  simp [docsItem, h]

/-- Witness for C4 against a non-empty store missing the requested path. -/
theorem c4_witness :
    ([c1row].find? (fun r => r.path == (rsplitOnceHash "missing.html#frag").1) = none) ∧
      docsItem c1fs [c1row] "missing.html#frag" =
        .error (.sqlite .queryReturnedNoRows) :=
  ⟨by decide, c4_missing_row_amended c1fs [c1row] "missing.html#frag" (by decide)⟩

/-! ### Search round-trip (C2) -/

/-- C2: the round trip never completes on this code:
`search_crate_type_definitions` first runs `wrm_index::index` and
propagates its result with `?`, and the index build always fails with
`MultipleStatement` at the two-statement `CREATE` call (leaving no
`searchIndex` table to query) — here shown on a docset whose walk
succeeds with two entries, for any prior store state. -/
theorem c2_roundtrip_build_fails :
    walkList [] "" c2tree = .ok [c2e1, c2e2] ∧
      (∀ db : DbState, indexBuild db c2tree = .error (.sqlite .multipleStatement)) :=
  ⟨by decide, fun _ => rfl⟩


/-- C1 counterexample: for the enum docset `c1fs` (one enum page with a
`variant.Array` section) whose walker entries are `c1entries`, take a
store state holding exactly those entries' `(name, type, path)` rows — the
state an index build intends (the build itself in fact fails, see C7/C8,
so the table is given directly).  Resolving
`enum.Value.html#variant.Array` then returns an `Item` whose `type_info`
is `Some` but whose `path` is the parent enum's name "Value" — it does not
end in `::Array`, because the store lookup keys on the file path alone
and so returns the enum's row. -/
theorem c1_counterexample :
    walkList [] "" c1fs = .ok c1entries ∧
      c1entries.map DocsetEntry.toRow = c1table ∧
      docsItem c1fs c1table "enum.Value.html#variant.Array" =
        .ok ⟨"Value", "Enum", some "", none, none⟩ ∧
      endsWithStr "Value" "::Array" = false := by decide

/-- C1 (amended): for a non-empty fragment, `resolve_item` returns an
`Item` whose `type_info` is the fragment element's markup (so `Some`) and
whose `path` is the name of the `searchIndex` row matching the *file
path* part of the key — for an enum file, the enum's own fully qualified
name, not `{enum}::{variant}` — since the SQL lookup ignores the
fragment. -/
theorem c1_item_fragment_amended (fsRoot : FsList) (table : List Row)
    (arg p frag : String) (row : Row) (content : FileContent) (loc : Loc)
    (hsplit : rsplitOnceHash arg = (p, frag))
    (hfrag : frag ≠ "")
    (hrow : table.find? (fun r => r.path == p) = some row)
    (hfile : fileAt fsRoot (splitSlashStr p) = some content)
    (hloc : findLocN (fun n => n.idAttr == some frag) [] content.dom = some loc) :
    docsItem fsRoot table arg =
      .ok ⟨row.name, row.ty, some (innerHtml loc.cur), findDocumentation loc,
           resolveSrcPath fsRoot p loc.cur⟩ := by
  simp [docsItem, hsplit, hfrag, hrow, hfile, hloc]

/-- Witness for C1 on the concrete enum docset. -/
theorem c1_witness :
    ("variant.Array" : String) ≠ "" ∧
      docsItem c1fs c1table "enum.Value.html#variant.Array" =
        .ok ⟨"Value", "Enum", some (innerHtml c1section), findDocumentation c1loc,
             resolveSrcPath c1fs "enum.Value.html" c1section⟩ :=
  ⟨by decide,
    c1_item_fragment_amended c1fs c1table "enum.Value.html#variant.Array"
      "enum.Value.html" "variant.Array" c1row c1content c1loc rfl (by decide)
      rfl rfl rfl⟩

end Bookworm
